import Mathlib

/-!
Shallow embedding of the roqoqo PRAGMA operations
(`src/roqoqo/src/operations/pragma_operations.rs`) together with the
external collaborators they use (the `qoqo_calculator` symbolic value type
and the circuit container), which are modelled from the specification.
Machine floats (`f64`) are modelled as real numbers.
-/

noncomputable section

/-- Modelled from the spec: the symbolic expressions handled by the external
`qoqo_calculator` collaborator ("concrete number or symbolic expression,
supporting arithmetic, exponentiation"). The Rust crate represents symbolic
expressions as strings such as "(a * b)" and "exp(a)"; the expression tree
below stands for that string (distinct trees render to distinct strings). -/
inductive CFExpr where
  | num : ℝ → CFExpr
  | sym : String → CFExpr
  | add : CFExpr → CFExpr → CFExpr
  | mul : CFExpr → CFExpr → CFExpr
  | div : CFExpr → CFExpr → CFExpr
  | exp : CFExpr → CFExpr

/-- Modelled from the spec: the external evaluator value type, "a small tagged
union of Concrete(f64) and Symbolic(expression) with arithmetic closed over
both cases and an explicit fallible resolve operation". -/
inductive CalculatorFloat where
  | Float : ℝ → CalculatorFloat
  | Str : CFExpr → CalculatorFloat

/-- Modelled from the spec: view of a calculator value as an expression. -/
def CalculatorFloat.toExpr : CalculatorFloat → CFExpr
  | .Float x => .num x
  | .Str e => e

/-- Modelled from the spec: multiplication on calculator values; eager on two
concrete values, symbolic expression building otherwise. -/
def CalculatorFloat.mul : CalculatorFloat → CalculatorFloat → CalculatorFloat
  | .Float x, .Float y => .Float (x * y)
  | a, b => .Str (.mul a.toExpr b.toExpr)

/-- Modelled from the spec: addition on calculator values. -/
def CalculatorFloat.add : CalculatorFloat → CalculatorFloat → CalculatorFloat
  | .Float x, .Float y => .Float (x + y)
  | a, b => .Str (.add a.toExpr b.toExpr)

/-- Modelled from the spec: division on calculator values. -/
def CalculatorFloat.div : CalculatorFloat → CalculatorFloat → CalculatorFloat
  | .Float x, .Float y => .Float (x / y)
  | a, b => .Str (.div a.toExpr b.toExpr)

/-- Modelled from the spec: exponential function on calculator values. -/
def CalculatorFloat.exp : CalculatorFloat → CalculatorFloat
  | .Float x => .Float (Real.exp x)
  | .Str e => .Str (.exp e)

/-- Multiplication by a plain float, as used by `cf * (-2.0)` in the source. -/
def CalculatorFloat.mulF (a : CalculatorFloat) (y : ℝ) : CalculatorFloat :=
  a.mul (.Float y)

/-- Addition of a plain float, as used by `cf + 1.0` in the source. -/
def CalculatorFloat.addF (a : CalculatorFloat) (y : ℝ) : CalculatorFloat :=
  a.add (.Float y)

/-- Division by a plain float, as used by `cf / 4.0` in the source. -/
def CalculatorFloat.divF (a : CalculatorFloat) (y : ℝ) : CalculatorFloat :=
  a.div (.Float y)

/-- Whether a calculator value is still a symbolic expression. -/
def CalculatorFloat.isSymbolic : CalculatorFloat → Bool
  | .Float _ => false
  | .Str _ => true

/-- Semantics of a symbolic expression under an assignment of the symbols. -/
def CFExpr.eval (σ : String → ℝ) : CFExpr → ℝ
  | .num x => x
  | .sym s => σ s
  | .add a b => a.eval σ + b.eval σ
  | .mul a b => a.eval σ * b.eval σ
  | .div a b => a.eval σ / b.eval σ
  | .exp a => Real.exp (a.eval σ)

/-- Semantics of a calculator value under an assignment of the symbols. -/
def cfEval (σ : String → ℝ) : CalculatorFloat → ℝ
  | .Float x => x
  | .Str e => e.eval σ

/-- The two error kinds of the design: a missing qubit in a remapping, and a
failure of the external calculator (symbolic value where a number is needed,
or an unset variable). -/
inductive RoqoqoError where
  | QubitMappingError : ℕ → RoqoqoError
  | CalculatorError : String → RoqoqoError

/-- The `f64::try_from(CalculatorFloat)` conversion: succeeds on a concrete
value, fails while the value is still symbolic. -/
def CalculatorFloat.tryFloat : CalculatorFloat → Except RoqoqoError ℝ
  | .Float x => .ok x
  | .Str _ => .error (.CalculatorError "FloatSymbolicNotConvertable")

/-- Modelled from the spec: the external evaluator's symbol table. -/
abbrev Calculator : Type := String → Option ℝ

/-- Modelled from the spec: resolving a symbolic expression through the
evaluator; fails naming the first unset variable. -/
def CFExpr.resolve (table : Calculator) : CFExpr → Except RoqoqoError ℝ
  | .num x => .ok x
  | .sym s =>
    match table s with
    | none => .error (.CalculatorError s)
    | some x => .ok x
  | .add a b => do
    let x ← a.resolve table
    let y ← b.resolve table
    .ok (x + y)
  | .mul a b => do
    let x ← a.resolve table
    let y ← b.resolve table
    .ok (x * y)
  | .div a b => do
    let x ← a.resolve table
    let y ← b.resolve table
    .ok (x / y)
  | .exp a => do
    let x ← a.resolve table
    .ok (Real.exp x)

/-- Modelled from the spec: substituting the symbolic parameters of one
calculator value through the evaluator. -/
def CalculatorFloat.substitute (table : Calculator) :
    CalculatorFloat → Except RoqoqoError CalculatorFloat
  | .Float x => .ok (.Float x)
  | .Str e => (e.resolve table).map .Float

/-- The three-way qubit involvement result of the operations interface. -/
inductive InvolvedQubits where
  | None : InvolvedQubits
  | All : InvolvedQubits
  | Set : Finset ℕ → InvolvedQubits

/-- Image of an involvement result under a qubit renaming. -/
def InvolvedQubits.image (f : ℕ → ℕ) : InvolvedQubits → InvolvedQubits
  | .None => .None
  | .All => .All
  | .Set s => .Set (s.image f)

/-- A caller-supplied qubit mapping, modelling lookups in the
`HashMap<usize, usize>` argument of `remap_qubits`. -/
abbrev QubitMapping : Type := ℕ → Option ℕ

/-- Total view of a qubit mapping (meaningful on covered qubits). -/
def mget (m : QubitMapping) (q : ℕ) : ℕ := (m q).getD 0

/-- The remapping loop over a qubit list used by the `remap_qubits`
implementations: look every qubit up, abort with `QubitMappingError` at the
first qubit absent from the mapping. -/
def remapList (m : QubitMapping) : List ℕ → Except RoqoqoError (List ℕ)
  | [] => .ok []
  | q :: qs =>
    match m q with
    | none => .error (.QubitMappingError q)
    | some q2 => (remapList m qs).map (fun rest => q2 :: rest)

/-- Association list insertion with the semantics of `HashMap::insert`:
replace the value when the key is present, append otherwise. -/
def insertAssoc (l : List (ℕ × ℕ)) (k v : ℕ) : List (ℕ × ℕ) :=
  if k ∈ l.map Prod.fst then
    l.map (fun p => if p.1 = k then (k, v) else p)
  else l ++ [(k, v)]

/-- The reordering-dictionary loop of
`PragmaStartDecompositionBlock::remap_qubits`: remap each key and each value
through the caller's mapping, abort at the first one absent, and insert the
remapped pair into the accumulated dictionary. -/
def remapDictLoop (m : QubitMapping) (acc : List (ℕ × ℕ)) :
    List (ℕ × ℕ) → Except RoqoqoError (List (ℕ × ℕ))
  | [] => .ok acc
  | (o, n) :: rest =>
    match m o with
    | none => .error (.QubitMappingError o)
    | some o2 =>
      match m n with
      | none => .error (.QubitMappingError n)
      | some n2 => remapDictLoop m (insertAssoc acc o2 n2) rest

/-- Modelled from the spec: an element of the circuit container (an external
collaborator of this core): an operation confined to an explicit qubit list
and carrying one symbolic-or-concrete parameter. -/
structure SimpleOp where
  qubits : List ℕ
  param : CalculatorFloat

/-- Modelled from the spec: the circuit container, an ordered sequence of
operations, of which only the `involved_qubits`, `remap_qubits` and
`substitute_parameters` entry points are consumed here. -/
structure Circuit where
  operations : List SimpleOp

/-- Modelled from the spec: remapping of one contained operation. -/
def SimpleOp.remap_qubits (op : SimpleOp) (m : QubitMapping) :
    Except RoqoqoError SimpleOp :=
  (remapList m op.qubits).map (fun qs => ⟨qs, op.param⟩)

/-- Modelled from the spec: remapping of a sequence of operations, aborting
at the first operation whose remapping fails. -/
def remapOps (m : QubitMapping) : List SimpleOp → Except RoqoqoError (List SimpleOp)
  | [] => .ok []
  | op :: rest => do
    let op2 ← op.remap_qubits m
    let rest2 ← remapOps m rest
    .ok (op2 :: rest2)

/-- Modelled from the spec: the circuit container's `remap_qubits` entry
point, failing with `QubitMappingError` exactly on a qubit some contained
operation uses that is absent from the mapping. -/
def Circuit.remap_qubits (c : Circuit) (m : QubitMapping) :
    Except RoqoqoError Circuit :=
  (remapOps m c.operations).map Circuit.mk

/-- Modelled from the spec: parameter substitution of one contained
operation through the external evaluator. -/
def SimpleOp.substitute_parameters (op : SimpleOp) (table : Calculator) :
    Except RoqoqoError SimpleOp :=
  (op.param.substitute table).map (fun p => ⟨op.qubits, p⟩)

/-- Modelled from the spec: parameter substitution of a sequence of
operations, aborting at the first failure of the evaluator. -/
def substOps (table : Calculator) : List SimpleOp → Except RoqoqoError (List SimpleOp)
  | [] => .ok []
  | op :: rest => do
    let op2 ← op.substitute_parameters table
    let rest2 ← substOps table rest
    .ok (op2 :: rest2)

/-- Modelled from the spec: the circuit container's `substitute_parameters`
entry point. -/
def Circuit.substitute_parameters (c : Circuit) (table : Calculator) :
    Except RoqoqoError Circuit :=
  (substOps table c.operations).map Circuit.mk

/-- Union of the explicit qubit sets of the contained operations. -/
def involvedOps : List SimpleOp → Finset ℕ
  | [] => ∅
  | op :: rest => op.qubits.toFinset ∪ involvedOps rest

/-- Modelled from the spec: the circuit container's aggregate qubit
involvement. -/
def Circuit.involved_qubits (c : Circuit) : InvolvedQubits :=
  .Set (involvedOps c.operations)

/-- All qubits the contained operations structurally depend on. -/
def Circuit.usedQubits (c : Circuit) : List ℕ :=
  c.operations.flatMap SimpleOp.qubits

/-- This PRAGMA Operation sets the number of measurements of the circuit. -/
structure PragmaSetNumberOfMeasurements where
  number_measurements : ℕ
  readout : String

def TAGS_PragmaSetNumberOfMeasurements : List String :=
  ["Operation", "PragmaOperation", "PragmaSetNumberOfMeasurements"]

/-- This PRAGMA Operation sets the statevector of a quantum register. -/
structure PragmaSetStateVector where
  statevector : List ℂ

def TAGS_PragmaSetStateVector : List String :=
  ["Operation", "PragmaOperation", "PragmaSetStateVector"]

/-- This PRAGMA Operation sets the density matrix of a quantum register. -/
structure PragmaSetDensityMatrix where
  density_matrix : List (List ℂ)

def TAGS_PragmaSetDensityMatrix : List String :=
  ["Operation", "PragmaOperation", "PragmaSetDensityMatrix"]

/-- The repeated gate PRAGMA operation. -/
structure PragmaRepeatGate where
  repetition_coefficient : ℕ

def TAGS_PragmaRepeatGate : List String :=
  ["Operation", "PragmaOperation", "PragmaRepeatGate"]

/-- The statistical overrotation PRAGMA operation. -/
structure PragmaOverrotation where
  gate_hqslang : String
  qubits : List ℕ
  amplitude : ℝ
  variance : ℝ

def TAGS_PragmaOverrotation : List String :=
  ["Operation", "MultiQubitOperation", "PragmaOperation", "PragmaOverrotation"]

/-- This PRAGMA Operation boosts noise and overrotations in the circuit. -/
structure PragmaBoostNoise where
  noise_coefficient : CalculatorFloat

def TAGS_PragmaBoostNoise : List String :=
  ["Operation", "PragmaOperation", "PragmaBoostNoise"]

/-- This PRAGMA Operation signals the STOP of a parallel execution block. -/
structure PragmaStopParallelBlock where
  qubits : List ℕ
  execution_time : CalculatorFloat

def TAGS_PragmaStopParallelBlock : List String :=
  ["Operation", "MultiQubitOperation", "PragmaOperation", "PragmaStopParallelBlock"]

/-- The global phase PRAGMA operation. -/
structure PragmaGlobalPhase where
  phase : CalculatorFloat

def TAGS_PragmaGlobalPhase : List String :=
  ["Operation", "PragmaOperation", "PragmaGlobalPhase"]

/-- This PRAGMA Operation makes the quantum hardware wait a given amount of time. -/
structure PragmaSleep where
  qubits : List ℕ
  sleep_time : CalculatorFloat

def TAGS_PragmaSleep : List String :=
  ["Operation", "MultiQubitOperation", "PragmaOperation", "PragmaSleep"]

/-- This PRAGMA Operation resets the chosen qubit to the zero state. -/
structure PragmaActiveReset where
  qubit : ℕ

def TAGS_PragmaActiveReset : List String :=
  ["Operation", "SingleQubitOperation", "PragmaOperation", "PragmaActiveReset"]

/-- This PRAGMA Operation signals the START of a decomposition block.
The `HashMap` reordering dictionary is modelled as an association list
(its keys are unique in the Rust value). -/
structure PragmaStartDecompositionBlock where
  qubits : List ℕ
  reordering_dictionary : List (ℕ × ℕ)

def TAGS_PragmaStartDecompositionBlock : List String :=
  ["Operation", "MultiQubitOperation", "PragmaOperation", "PragmaStartDecompositionBlock"]

/-- The `remap_qubits` implementation of `PragmaStartDecompositionBlock`
(source lines 402-433): remap the qubit list element-wise, then remap every
key and every value of the reordering dictionary, aborting with
`QubitMappingError` at the first missing qubit. -/
def PragmaStartDecompositionBlock.remap_qubits
    (op : PragmaStartDecompositionBlock) (mapping : QubitMapping) :
    Except RoqoqoError PragmaStartDecompositionBlock := do
  let new_qubits ← remapList mapping op.qubits
  let mutable_reordering ← remapDictLoop mapping [] op.reordering_dictionary
  .ok ⟨new_qubits, mutable_reordering⟩

/-- The `substitute_parameters` implementation of
`PragmaStartDecompositionBlock` (source lines 436-438): a clone. -/
def PragmaStartDecompositionBlock.substitute_parameters
    (op : PragmaStartDecompositionBlock) (_calculator : Calculator) :
    Except RoqoqoError PragmaStartDecompositionBlock :=
  .ok op

/-- All qubits a decomposition-block start structurally depends on: its
qubit list plus the keys and values of its reordering dictionary. -/
def PragmaStartDecompositionBlock.usedQubits
    (op : PragmaStartDecompositionBlock) : List ℕ :=
  op.qubits ++ op.reordering_dictionary.flatMap (fun p => [p.1, p.2])

/-- This PRAGMA Operation signals the STOP of a decomposition block. -/
structure PragmaStopDecompositionBlock where
  qubits : List ℕ

def TAGS_PragmaStopDecompositionBlock : List String :=
  ["Operation", "MultiQubitOperation", "PragmaOperation", "PragmaStopDecompositionBlock"]

/-- The damping PRAGMA noise Operation. -/
structure PragmaDamping where
  qubit : ℕ
  gate_time : CalculatorFloat
  rate : CalculatorFloat

def TAGS_PragmaDamping : List String :=
  ["Operation", "SingleQubitOperation", "PragmaOperation", "PragmaNoiseOperation",
   "PragmaDamping"]

/-- The superoperator of `PragmaDamping` (source lines 503-517). -/
def PragmaDamping.superoperator (op : PragmaDamping) :
    Except RoqoqoError (Fin 4 → Fin 4 → ℝ) := do
  let gate_time ← op.gate_time.tryFloat
  let rate ← op.rate.tryFloat
  let pre_exp : ℝ := -1 * gate_time * rate
  let prob : ℝ := 1 - Real.exp pre_exp
  let sqrt : ℝ := Real.sqrt (1 - prob)
  .ok ![![1, 0, 0, prob],
        ![0, sqrt, 0, 0],
        ![0, 0, sqrt, 0],
        ![0, 0, 0, 1 - prob]]

/-- The probability of `PragmaDamping` (source lines 520-524):
`((gate_time * rate * (-2.0)).exp() * (-1.0) + 1.0) * 0.5`. -/
def PragmaDamping.probability (op : PragmaDamping) : CalculatorFloat :=
  ((((op.gate_time.mul op.rate).mulF (-2)).exp.mulF (-1)).addF 1).mulF (1 / 2)

/-- The power of `PragmaDamping` (source lines 527-531): the gate time is
multiplied by the exponent. -/
def PragmaDamping.powercf (op : PragmaDamping) (power : CalculatorFloat) :
    PragmaDamping :=
  { op with gate_time := power.mul op.gate_time }

/-- The depolarising PRAGMA noise Operation. -/
structure PragmaDepolarising where
  qubit : ℕ
  gate_time : CalculatorFloat
  rate : CalculatorFloat

def TAGS_PragmaDepolarising : List String :=
  ["Operation", "SingleQubitOperation", "PragmaOperation", "PragmaNoiseOperation",
   "PragmaDepolarising"]

/-- The superoperator of `PragmaDepolarising` (source lines 570-586). -/
def PragmaDepolarising.superoperator (op : PragmaDepolarising) :
    Except RoqoqoError (Fin 4 → Fin 4 → ℝ) := do
  let gate_time ← op.gate_time.tryFloat
  let rate ← op.rate.tryFloat
  let pre_exp : ℝ := -1 * gate_time * rate
  let prob : ℝ := 3 / 4 * (1 - Real.exp pre_exp)
  let proba1 : ℝ := 1 - 2 / 3 * prob
  let proba2 : ℝ := 1 - 4 / 3 * prob
  let proba3 : ℝ := 2 / 3 * prob
  .ok ![![proba1, 0, 0, proba3],
        ![0, proba2, 0, 0],
        ![0, 0, proba2, 0],
        ![proba3, 0, 0, proba1]]

/-- The probability of `PragmaDepolarising` (source lines 589-593):
`((gate_time * rate * (-1.0)).exp() * (-1.0) + 1.0) * 0.75`. -/
def PragmaDepolarising.probability (op : PragmaDepolarising) : CalculatorFloat :=
  ((((op.gate_time.mul op.rate).mulF (-1)).exp.mulF (-1)).addF 1).mulF (3 / 4)

/-- The power of `PragmaDepolarising` (source lines 596-600). -/
def PragmaDepolarising.powercf (op : PragmaDepolarising) (power : CalculatorFloat) :
    PragmaDepolarising :=
  { op with gate_time := power.mul op.gate_time }

/-- The dephasing PRAGMA noise Operation. -/
structure PragmaDephasing where
  qubit : ℕ
  gate_time : CalculatorFloat
  rate : CalculatorFloat

def TAGS_PragmaDephasing : List String :=
  ["Operation", "SingleQubitOperation", "PragmaOperation", "PragmaNoiseOperation",
   "PragmaDephasing"]

/-- The superoperator of `PragmaDephasing` (source lines 639-652). -/
def PragmaDephasing.superoperator (op : PragmaDephasing) :
    Except RoqoqoError (Fin 4 → Fin 4 → ℝ) := do
  let gate_time ← op.gate_time.tryFloat
  let rate ← op.rate.tryFloat
  let pre_exp : ℝ := -2 * gate_time * rate
  let prob : ℝ := 1 / 2 * (1 - Real.exp pre_exp)
  .ok ![![1, 0, 0, 0],
        ![0, 1 - 2 * prob, 0, 0],
        ![0, 0, 1 - 2 * prob, 0],
        ![0, 0, 0, 1]]

/-- The probability of `PragmaDephasing` (source lines 655-659). -/
def PragmaDephasing.probability (op : PragmaDephasing) : CalculatorFloat :=
  ((((op.gate_time.mul op.rate).mulF (-2)).exp.mulF (-1)).addF 1).mulF (1 / 2)

/-- The power of `PragmaDephasing` (source lines 662-666). -/
def PragmaDephasing.powercf (op : PragmaDephasing) (power : CalculatorFloat) :
    PragmaDephasing :=
  { op with gate_time := power.mul op.gate_time }

/-- The random noise PRAGMA operation. -/
structure PragmaRandomNoise where
  qubit : ℕ
  gate_time : CalculatorFloat
  depolarising_rate : CalculatorFloat
  dephasing_rate : CalculatorFloat

def TAGS_PragmaRandomNoise : List String :=
  ["Operation", "SingleQubitOperation", "PragmaOperation", "PragmaNoiseOperation",
   "PragmaRandomNoise"]

/-- The superoperator of `PragmaRandomNoise` (source lines 708-721): only
the dephasing rate enters, with the dephasing formula. -/
def PragmaRandomNoise.superoperator (op : PragmaRandomNoise) :
    Except RoqoqoError (Fin 4 → Fin 4 → ℝ) := do
  let gate_time ← op.gate_time.tryFloat
  let rate ← op.dephasing_rate.tryFloat
  let pre_exp : ℝ := -2 * gate_time * rate
  let prob : ℝ := 1 / 2 * (1 - Real.exp pre_exp)
  .ok ![![1, 0, 0, 0],
        ![0, 1 - 2 * prob, 0, 0],
        ![0, 0, 1 - 2 * prob, 0],
        ![0, 0, 0, 1]]

/-- The probability of `PragmaRandomNoise` (source lines 724-731): the sum
of the three partial rates, multiplied by the gate time. -/
def PragmaRandomNoise.probability (op : PragmaRandomNoise) : CalculatorFloat :=
  let r0 := op.depolarising_rate.divF 4
  let r1 := op.depolarising_rate.divF 4
  let r2 := (op.depolarising_rate.divF 4).add op.dephasing_rate
  ((r0.add r1).add r2).mul op.gate_time

/-- The power of `PragmaRandomNoise` (source lines 734-738). -/
def PragmaRandomNoise.powercf (op : PragmaRandomNoise) (power : CalculatorFloat) :
    PragmaRandomNoise :=
  { op with gate_time := power.mul op.gate_time }

/-- The general noise PRAGMA operation. -/
structure PragmaGeneralNoise where
  qubit : ℕ
  gate_time : CalculatorFloat
  rate : CalculatorFloat
  operators : List (List ℂ)

def TAGS_PragmaGeneralNoise : List String :=
  ["Operation", "SingleQubitOperation", "PragmaOperation", "PragmaGeneralNoise"]

/-- The conditional PRAGMA operation. -/
structure PragmaConditional where
  condition_register : String
  condition_index : ℕ
  circuit : Circuit

def TAGS_PragmaConditional : List String :=
  ["Operation", "SingleQubitOperation", "PragmaOperation", "PragmaConditional"]

/-- The `involved_qubits` implementation of `PragmaConditional` (source
lines 844-849): delegates to the embedded circuit. -/
def PragmaConditional.involved_qubits (op : PragmaConditional) : InvolvedQubits :=
  op.circuit.involved_qubits

/-- The `remap_qubits` implementation of `PragmaConditional` (source lines
854-861): `self.circuit.remap_qubits(mapping).unwrap()` — the `.unwrap()` on
the sub-circuit result is modelled by the outer `Option`, with `none`
standing for the panic; a returned value is always `Ok`. -/
def PragmaConditional.remap_qubits (op : PragmaConditional) (mapping : QubitMapping) :
    Option (Except RoqoqoError PragmaConditional) :=
  match op.circuit.remap_qubits mapping with
  | .error _ => none
  | .ok new_circuit =>
    some (.ok ⟨op.condition_register, op.condition_index, new_circuit⟩)

/-- The `substitute_parameters` implementation of `PragmaConditional`
(source lines 864-871): `self.circuit.substitute_parameters(calculator)
.unwrap()` — again `none` stands for the panic of the `.unwrap()`. -/
def PragmaConditional.substitute_parameters (op : PragmaConditional)
    (calculator : Calculator) : Option (Except RoqoqoError PragmaConditional) :=
  match op.circuit.substitute_parameters calculator with
  | .error _ => none
  | .ok new_circuit =>
    some (.ok ⟨op.condition_register, op.condition_index, new_circuit⟩)

/-- The closed set of PRAGMA operation variants of the source file. -/
inductive Operation where
  | PragmaSetNumberOfMeasurements : PragmaSetNumberOfMeasurements → Operation
  | PragmaSetStateVector : PragmaSetStateVector → Operation
  | PragmaSetDensityMatrix : PragmaSetDensityMatrix → Operation
  | PragmaRepeatGate : PragmaRepeatGate → Operation
  | PragmaOverrotation : PragmaOverrotation → Operation
  | PragmaBoostNoise : PragmaBoostNoise → Operation
  | PragmaStopParallelBlock : PragmaStopParallelBlock → Operation
  | PragmaGlobalPhase : PragmaGlobalPhase → Operation
  | PragmaSleep : PragmaSleep → Operation
  | PragmaActiveReset : PragmaActiveReset → Operation
  | PragmaStartDecompositionBlock : PragmaStartDecompositionBlock → Operation
  | PragmaStopDecompositionBlock : PragmaStopDecompositionBlock → Operation
  | PragmaDamping : PragmaDamping → Operation
  | PragmaDepolarising : PragmaDepolarising → Operation
  | PragmaDephasing : PragmaDephasing → Operation
  | PragmaRandomNoise : PragmaRandomNoise → Operation
  | PragmaGeneralNoise : PragmaGeneralNoise → Operation
  | PragmaConditional : PragmaConditional → Operation

/-- The discriminant of an operation: its variant. -/
inductive PragmaVariant where
  | SetNumberOfMeasurements | SetStateVector | SetDensityMatrix | RepeatGate
  | Overrotation | BoostNoise | StopParallelBlock | GlobalPhase | Sleep
  | ActiveReset | StartDecompositionBlock | StopDecompositionBlock
  | Damping | Depolarising | Dephasing | RandomNoise | GeneralNoise | Conditional

/-- The variant an operation instance belongs to. -/
def Operation.variant : Operation → PragmaVariant
  | .PragmaSetNumberOfMeasurements _ => .SetNumberOfMeasurements
  | .PragmaSetStateVector _ => .SetStateVector
  | .PragmaSetDensityMatrix _ => .SetDensityMatrix
  | .PragmaRepeatGate _ => .RepeatGate
  | .PragmaOverrotation _ => .Overrotation
  | .PragmaBoostNoise _ => .BoostNoise
  | .PragmaStopParallelBlock _ => .StopParallelBlock
  | .PragmaGlobalPhase _ => .GlobalPhase
  | .PragmaSleep _ => .Sleep
  | .PragmaActiveReset _ => .ActiveReset
  | .PragmaStartDecompositionBlock _ => .StartDecompositionBlock
  | .PragmaStopDecompositionBlock _ => .StopDecompositionBlock
  | .PragmaDamping _ => .Damping
  | .PragmaDepolarising _ => .Depolarising
  | .PragmaDephasing _ => .Dephasing
  | .PragmaRandomNoise _ => .RandomNoise
  | .PragmaGeneralNoise _ => .GeneralNoise
  | .PragmaConditional _ => .Conditional

/-- The per-variant static tag table of the source (the `TAGS_*` constants). -/
def tagsOfVariant : PragmaVariant → List String
  | .SetNumberOfMeasurements => TAGS_PragmaSetNumberOfMeasurements
  | .SetStateVector => TAGS_PragmaSetStateVector
  | .SetDensityMatrix => TAGS_PragmaSetDensityMatrix
  | .RepeatGate => TAGS_PragmaRepeatGate
  | .Overrotation => TAGS_PragmaOverrotation
  | .BoostNoise => TAGS_PragmaBoostNoise
  | .StopParallelBlock => TAGS_PragmaStopParallelBlock
  | .GlobalPhase => TAGS_PragmaGlobalPhase
  | .Sleep => TAGS_PragmaSleep
  | .ActiveReset => TAGS_PragmaActiveReset
  | .StartDecompositionBlock => TAGS_PragmaStartDecompositionBlock
  | .StopDecompositionBlock => TAGS_PragmaStopDecompositionBlock
  | .Damping => TAGS_PragmaDamping
  | .Depolarising => TAGS_PragmaDepolarising
  | .Dephasing => TAGS_PragmaDephasing
  | .RandomNoise => TAGS_PragmaRandomNoise
  | .GeneralNoise => TAGS_PragmaGeneralNoise
  | .Conditional => TAGS_PragmaConditional

/-- The `tags()` call of each operation instance, dispatching to the static
per-variant constant. -/
def Operation.tags : Operation → List String
  | .PragmaSetNumberOfMeasurements _ => TAGS_PragmaSetNumberOfMeasurements
  | .PragmaSetStateVector _ => TAGS_PragmaSetStateVector
  | .PragmaSetDensityMatrix _ => TAGS_PragmaSetDensityMatrix
  | .PragmaRepeatGate _ => TAGS_PragmaRepeatGate
  | .PragmaOverrotation _ => TAGS_PragmaOverrotation
  | .PragmaBoostNoise _ => TAGS_PragmaBoostNoise
  | .PragmaStopParallelBlock _ => TAGS_PragmaStopParallelBlock
  | .PragmaGlobalPhase _ => TAGS_PragmaGlobalPhase
  | .PragmaSleep _ => TAGS_PragmaSleep
  | .PragmaActiveReset _ => TAGS_PragmaActiveReset
  | .PragmaStartDecompositionBlock _ => TAGS_PragmaStartDecompositionBlock
  | .PragmaStopDecompositionBlock _ => TAGS_PragmaStopDecompositionBlock
  | .PragmaDamping _ => TAGS_PragmaDamping
  | .PragmaDepolarising _ => TAGS_PragmaDepolarising
  | .PragmaDephasing _ => TAGS_PragmaDephasing
  | .PragmaRandomNoise _ => TAGS_PragmaRandomNoise
  | .PragmaGeneralNoise _ => TAGS_PragmaGeneralNoise
  | .PragmaConditional _ => TAGS_PragmaConditional

/-- The `involved_qubits` of every variant, as implemented in the source
(custom implementations) or generated by the derive macros (modelled from
the spec: explicit set of the stored qubit or qubit list). -/
def Operation.involved_qubits : Operation → InvolvedQubits
  | .PragmaSetNumberOfMeasurements _ => .None
  | .PragmaSetStateVector _ => .All
  | .PragmaSetDensityMatrix _ => .All
  | .PragmaRepeatGate _ => .All
  | .PragmaOverrotation op => .Set op.qubits.toFinset
  | .PragmaBoostNoise _ => .None
  | .PragmaStopParallelBlock op => .Set op.qubits.toFinset
  | .PragmaGlobalPhase _ => .None
  | .PragmaSleep op => .Set op.qubits.toFinset
  | .PragmaActiveReset op => .Set {op.qubit}
  | .PragmaStartDecompositionBlock op => .Set op.qubits.toFinset
  | .PragmaStopDecompositionBlock op => .Set op.qubits.toFinset
  | .PragmaDamping op => .Set {op.qubit}
  | .PragmaDepolarising op => .Set {op.qubit}
  | .PragmaDephasing op => .Set {op.qubit}
  | .PragmaRandomNoise op => .Set {op.qubit}
  | .PragmaGeneralNoise op => .Set {op.qubit}
  | .PragmaConditional op => op.involved_qubits

/-- Remapping of a single stored qubit, as generated by the derive macro for
single-qubit operations (modelled from the spec: look the qubit up, fail
naming it when absent). -/
def remapSingle (m : QubitMapping) (q : ℕ) : Except RoqoqoError ℕ :=
  match m q with
  | none => .error (.QubitMappingError q)
  | some q2 => .ok q2

/-- The `remap_qubits` of every variant: custom implementations from the
source for the decomposition-block start and the conditional, derive-macro
behaviour (modelled from the spec) for the rest.  The outer `Option` carries
the panic of the conditional variant (`none`); every other variant always
returns `some`. -/
def Operation.remap_qubits (op : Operation) (m : QubitMapping) :
    Option (Except RoqoqoError Operation) :=
  match op with
  | .PragmaSetNumberOfMeasurements op => some (.ok (.PragmaSetNumberOfMeasurements op))
  | .PragmaSetStateVector op => some (.ok (.PragmaSetStateVector op))
  | .PragmaSetDensityMatrix op => some (.ok (.PragmaSetDensityMatrix op))
  | .PragmaRepeatGate op => some (.ok (.PragmaRepeatGate op))
  | .PragmaOverrotation op =>
    some ((remapList m op.qubits).map fun qs => .PragmaOverrotation { op with qubits := qs })
  | .PragmaBoostNoise op => some (.ok (.PragmaBoostNoise op))
  | .PragmaStopParallelBlock op =>
    some ((remapList m op.qubits).map fun qs => .PragmaStopParallelBlock { op with qubits := qs })
  | .PragmaGlobalPhase op => some (.ok (.PragmaGlobalPhase op))
  | .PragmaSleep op =>
    some ((remapList m op.qubits).map fun qs => .PragmaSleep { op with qubits := qs })
  | .PragmaActiveReset op =>
    some ((remapSingle m op.qubit).map fun q => .PragmaActiveReset { op with qubit := q })
  | .PragmaStartDecompositionBlock op =>
    some ((op.remap_qubits m).map .PragmaStartDecompositionBlock)
  | .PragmaStopDecompositionBlock op =>
    some ((remapList m op.qubits).map fun qs => .PragmaStopDecompositionBlock { op with qubits := qs })
  | .PragmaDamping op =>
    some ((remapSingle m op.qubit).map fun q => .PragmaDamping { op with qubit := q })
  | .PragmaDepolarising op =>
    some ((remapSingle m op.qubit).map fun q => .PragmaDepolarising { op with qubit := q })
  | .PragmaDephasing op =>
    some ((remapSingle m op.qubit).map fun q => .PragmaDephasing { op with qubit := q })
  | .PragmaRandomNoise op =>
    some ((remapSingle m op.qubit).map fun q => .PragmaRandomNoise { op with qubit := q })
  | .PragmaGeneralNoise op =>
    some ((remapSingle m op.qubit).map fun q => .PragmaGeneralNoise { op with qubit := q })
  | .PragmaConditional op => (op.remap_qubits m).map (Except.map .PragmaConditional)

/-- All qubits whose presence in the caller's mapping `remap_qubits`
requires: the stored qubit or qubit list, plus, for the decomposition-block
start, the keys and values of the reordering dictionary, and, for the
conditional, the qubits of the embedded circuit. -/
def Operation.usedQubits : Operation → List ℕ
  | .PragmaSetNumberOfMeasurements _ => []
  | .PragmaSetStateVector _ => []
  | .PragmaSetDensityMatrix _ => []
  | .PragmaRepeatGate _ => []
  | .PragmaOverrotation op => op.qubits
  | .PragmaBoostNoise _ => []
  | .PragmaStopParallelBlock op => op.qubits
  | .PragmaGlobalPhase _ => []
  | .PragmaSleep op => op.qubits
  | .PragmaActiveReset op => [op.qubit]
  | .PragmaStartDecompositionBlock op => op.usedQubits
  | .PragmaStopDecompositionBlock op => op.qubits
  | .PragmaDamping op => [op.qubit]
  | .PragmaDepolarising op => [op.qubit]
  | .PragmaDephasing op => [op.qubit]
  | .PragmaRandomNoise op => [op.qubit]
  | .PragmaGeneralNoise op => [op.qubit]
  | .PragmaConditional op => op.circuit.usedQubits

/-- Well-formedness inherited from the Rust types: a `HashMap` cannot hold
two entries with the same key, so the reordering dictionary of a
decomposition-block start has no duplicate keys. -/
def Operation.wf : Operation → Prop
  | .PragmaStartDecompositionBlock op => (op.reordering_dictionary.map Prod.fst).Nodup
  | _ => True

theorem cfEval_mul (σ : String → ℝ) (a b : CalculatorFloat) :
    cfEval σ (a.mul b) = cfEval σ a * cfEval σ b := by
  cases a <;> cases b <;>
    simp [CalculatorFloat.mul, cfEval, CalculatorFloat.toExpr, CFExpr.eval]

theorem cfEval_add (σ : String → ℝ) (a b : CalculatorFloat) :
    cfEval σ (a.add b) = cfEval σ a + cfEval σ b := by
  cases a <;> cases b <;>
    simp [CalculatorFloat.add, cfEval, CalculatorFloat.toExpr, CFExpr.eval]

theorem cfEval_div (σ : String → ℝ) (a b : CalculatorFloat) :
    cfEval σ (a.div b) = cfEval σ a / cfEval σ b := by
  cases a <;> cases b <;>
    simp [CalculatorFloat.div, cfEval, CalculatorFloat.toExpr, CFExpr.eval]

theorem cfEval_exp (σ : String → ℝ) (a : CalculatorFloat) :
    cfEval σ a.exp = Real.exp (cfEval σ a) := by
  cases a <;> simp [CalculatorFloat.exp, cfEval, CFExpr.eval]

theorem cfEval_mulF (σ : String → ℝ) (a : CalculatorFloat) (y : ℝ) :
    cfEval σ (a.mulF y) = cfEval σ a * y := by
  rw [CalculatorFloat.mulF, cfEval_mul]; rfl

theorem cfEval_addF (σ : String → ℝ) (a : CalculatorFloat) (y : ℝ) :
    cfEval σ (a.addF y) = cfEval σ a + y := by
  rw [CalculatorFloat.addF, cfEval_add]; rfl

theorem cfEval_divF (σ : String → ℝ) (a : CalculatorFloat) (y : ℝ) :
    cfEval σ (a.divF y) = cfEval σ a / y := by
  rw [CalculatorFloat.divF, cfEval_div]; rfl

theorem mul_isSymbolic_left (a : CFExpr) (b : CalculatorFloat) :
    ((CalculatorFloat.Str a).mul b).isSymbolic = true := by
  cases b <;> simp [CalculatorFloat.mul, CalculatorFloat.isSymbolic]

theorem mul_isSymbolic_right (a : CalculatorFloat) (b : CFExpr) :
    (a.mul (.Str b)).isSymbolic = true := by
  cases a <;> simp [CalculatorFloat.mul, CalculatorFloat.isSymbolic]

theorem isSymbolic_spread (a : CalculatorFloat) (h : a.isSymbolic = true) :
    ∃ e, a = .Str e := by
  cases a with
  | Float x => simp [CalculatorFloat.isSymbolic] at h
  | Str e => exact ⟨e, rfl⟩

theorem remapList_ok_of_covered (m : QubitMapping) (qs : List ℕ)
    (h : ∀ q ∈ qs, (m q).isSome) :
    remapList m qs = .ok (qs.map (mget m)) := by
  induction qs with
  | nil => rfl
  | cons q rest ih =>
    obtain ⟨v, hv⟩ := Option.isSome_iff_exists.mp (h q (by simp))
    rw [remapList, hv, ih fun x hx => h x (by simp [hx])]
    simp [Except.map, mget, hv]

theorem remapList_error_mem (m : QubitMapping) (qs : List ℕ) (q : ℕ)
    (h : remapList m qs = .error (.QubitMappingError q)) :
    q ∈ qs ∧ m q = none := by
  induction qs with
  | nil => simp [remapList] at h
  | cons q0 rest ih =>
    cases hm : m q0 with
    | none =>
      rw [remapList, hm] at h
      obtain rfl : q0 = q := by simpa using h
      exact ⟨by simp, hm⟩
    | some v =>
      rw [remapList, hm] at h
      cases hr : remapList m rest with
      | ok l => rw [hr] at h; simp [Except.map] at h
      | error e =>
        rw [hr] at h
        obtain rfl : e = .QubitMappingError q := by simpa [Except.map] using h
        obtain ⟨hmem, hnone⟩ := ih hr
        exact ⟨by simp [hmem], hnone⟩

theorem remapList_error_exists (m : QubitMapping) (qs : List ℕ) (q : ℕ)
    (hq : q ∈ qs) (hn : m q = none) :
    ∃ q2, remapList m qs = .error (.QubitMappingError q2) := by
  induction qs with
  | nil => simp at hq
  | cons q0 rest ih =>
    cases hm : m q0 with
    | none => exact ⟨q0, by rw [remapList, hm]⟩
    | some v =>
      have hq' : q ∈ rest := by
        rcases List.mem_cons.mp hq with h | h
        · subst h; rw [hm] at hn; cases hn
        · exact h
      obtain ⟨q2, h2⟩ := ih hq'
      exact ⟨q2, by rw [remapList, hm, h2]; rfl⟩

theorem remapList_id (m : QubitMapping) (qs : List ℕ)
    (h : ∀ q ∈ qs, m q = some q) :
    remapList m qs = .ok qs := by
  rw [remapList_ok_of_covered m qs (fun q hq => by simp [h q hq])]
  congr 1
  conv_rhs => rw [show qs = qs.map id from (List.map_id qs).symm]
  exact List.map_congr_left fun q hq => by simp [mget, h q hq]

theorem mem_flatMap_pair_left (o n : ℕ) (rest : List (ℕ × ℕ)) :
    o ∈ ((o, n) :: rest).flatMap fun p => [p.1, p.2] := by
  rw [List.flatMap_cons]; exact List.mem_append_left _ (by simp)

theorem mem_flatMap_pair_right (o n : ℕ) (rest : List (ℕ × ℕ)) :
    n ∈ ((o, n) :: rest).flatMap fun p => [p.1, p.2] := by
  rw [List.flatMap_cons]; exact List.mem_append_left _ (by simp)

theorem mem_flatMap_pair_rest (q o n : ℕ) (rest : List (ℕ × ℕ))
    (h : q ∈ rest.flatMap fun p => [p.1, p.2]) :
    q ∈ ((o, n) :: rest).flatMap fun p => [p.1, p.2] := by
  rw [List.flatMap_cons]; exact List.mem_append_right _ h

theorem mem_flatMap_pair_cases (q o n : ℕ) (rest : List (ℕ × ℕ))
    (h : q ∈ ((o, n) :: rest).flatMap fun p => [p.1, p.2]) :
    q = o ∨ q = n ∨ q ∈ rest.flatMap fun p => [p.1, p.2] := by
  rw [List.flatMap_cons] at h
  rcases List.mem_append.mp h with h | h
  · simp at h; tauto
  · tauto

theorem remapDictLoop_error_mem (m : QubitMapping) (l : List (ℕ × ℕ)) (q : ℕ) :
    ∀ acc, remapDictLoop m acc l = .error (.QubitMappingError q) →
      (q ∈ l.flatMap fun p => [p.1, p.2]) ∧ m q = none := by
  induction l with
  | nil => intro acc h; simp [remapDictLoop] at h
  | cons p rest ih =>
    intro acc h
    obtain ⟨o, n⟩ := p
    cases hmo : m o with
    | none =>
      simp only [remapDictLoop, hmo] at h
      obtain rfl : o = q := by simpa using h
      exact ⟨mem_flatMap_pair_left o n rest, hmo⟩
    | some o2 =>
      cases hmn : m n with
      | none =>
        simp only [remapDictLoop, hmo, hmn] at h
        obtain rfl : n = q := by simpa using h
        exact ⟨mem_flatMap_pair_right o n rest, hmn⟩
      | some n2 =>
        simp only [remapDictLoop, hmo, hmn] at h
        obtain ⟨hmem, hnone⟩ := ih _ h
        exact ⟨mem_flatMap_pair_rest q o n rest hmem, hnone⟩

theorem remapDictLoop_error_exists (m : QubitMapping) (l : List (ℕ × ℕ)) (q : ℕ)
    (hq : q ∈ l.flatMap fun p => [p.1, p.2]) (hn : m q = none) :
    ∀ acc, ∃ q2, remapDictLoop m acc l = .error (.QubitMappingError q2) := by
  induction l with
  | nil => simp at hq
  | cons p rest ih =>
    intro acc
    obtain ⟨o, n⟩ := p
    cases hmo : m o with
    | none => exact ⟨o, by simp only [remapDictLoop, hmo]⟩
    | some o2 =>
      cases hmn : m n with
      | none => exact ⟨n, by simp only [remapDictLoop, hmo, hmn]⟩
      | some n2 =>
        have hq' : q ∈ rest.flatMap fun p => [p.1, p.2] := by
          rcases mem_flatMap_pair_cases q o n rest hq with h | h | h
          · subst h; rw [hmo] at hn; cases hn
          · subst h; rw [hmn] at hn; cases hn
          · exact h
        obtain ⟨q2, h2⟩ := ih hq' (insertAssoc acc o2 n2)
        exact ⟨q2, by simp only [remapDictLoop, hmo, hmn, h2]⟩

theorem remapDictLoop_ok_of_covered (m : QubitMapping) (l : List (ℕ × ℕ))
    (h : ∀ q ∈ l.flatMap fun p => [p.1, p.2], (m q).isSome) :
    ∀ acc, ∃ d, remapDictLoop m acc l = .ok d := by
  induction l with
  | nil => exact fun acc => ⟨acc, rfl⟩
  | cons p rest ih =>
    intro acc
    obtain ⟨o, n⟩ := p
    obtain ⟨o2, ho⟩ := Option.isSome_iff_exists.mp (h o (mem_flatMap_pair_left o n rest))
    obtain ⟨n2, hn⟩ := Option.isSome_iff_exists.mp (h n (mem_flatMap_pair_right o n rest))
    obtain ⟨d, hd⟩ := ih (fun q hq => h q (mem_flatMap_pair_rest q o n rest hq))
      (insertAssoc acc o2 n2)
    exact ⟨d, by simp only [remapDictLoop, ho, hn, hd]⟩

theorem remapDictLoop_eq_append (m : QubitMapping) (l : List (ℕ × ℕ)) :
    ∀ acc, (∀ q ∈ l.flatMap fun p => [p.1, p.2], (m q).isSome) →
      ((acc.map Prod.fst ++ l.map fun p => mget m p.1).Nodup) →
      remapDictLoop m acc l = .ok (acc ++ l.map fun p => (mget m p.1, mget m p.2)) := by
  induction l with
  | nil => intro acc _ _; simp [remapDictLoop]
  | cons p rest ih =>
    intro acc hcov hnd
    obtain ⟨o, n⟩ := p
    obtain ⟨o2, ho⟩ := Option.isSome_iff_exists.mp (hcov o (mem_flatMap_pair_left o n rest))
    obtain ⟨n2, hn⟩ := Option.isSome_iff_exists.mp (hcov n (mem_flatMap_pair_right o n rest))
    have hgo : mget m o = o2 := by simp [mget, ho]
    have hgn : mget m n = n2 := by simp [mget, hn]
    have hmem : o2 ∉ acc.map Prod.fst := by
      have hd := List.disjoint_of_nodup_append hnd
      intro hmemacc
      exact hd hmemacc (by simp [hgo.symm])
    have hins : insertAssoc acc o2 n2 = acc ++ [(o2, n2)] := by
      rw [insertAssoc, if_neg hmem]
    have hnd2 : ((acc ++ [(o2, n2)]).map Prod.fst ++
        rest.map fun p => mget m p.1).Nodup := by
      simp only [List.map_append, List.map_cons, List.map_nil, List.append_assoc,
        List.singleton_append]
      simpa [hgo] using hnd
    have hcov2 : ∀ q ∈ rest.flatMap fun p => [p.1, p.2], (m q).isSome :=
      fun q hq => hcov q (mem_flatMap_pair_rest q o n rest hq)
    simp only [remapDictLoop, ho, hn, hins, ih _ hcov2 hnd2]
    simp [hgo, hgn]

theorem exceptBind_ok {ε α β : Type} (x : α) (f : α → Except ε β) :
    (Except.ok x >>= f : Except ε β) = f x := rfl

theorem exceptBind_error {ε α β : Type} (e : ε) (f : α → Except ε β) :
    (Except.error e >>= f : Except ε β) = .error e := rfl

theorem list_toFinset_map (f : ℕ → ℕ) (l : List ℕ) :
    (l.map f).toFinset = l.toFinset.image f := by
  induction l with
  | nil => simp
  | cons a l ih => simp [ih]

theorem map_mget_id (m : QubitMapping) (qs : List ℕ)
    (h : ∀ q ∈ qs, m q = some q) :
    qs.map (mget m) = qs := by
  conv_rhs => rw [show qs = qs.map id from (List.map_id qs).symm]
  exact List.map_congr_left fun q hq => by simp [mget, h q hq]

theorem remapOps_ok_of_covered (m : QubitMapping) (ops : List SimpleOp)
    (h : ∀ q ∈ ops.flatMap SimpleOp.qubits, (m q).isSome) :
    remapOps m ops = .ok (ops.map fun op => ⟨op.qubits.map (mget m), op.param⟩) := by
  induction ops with
  | nil => rfl
  | cons op rest ih =>
    have h1 : remapList m op.qubits = .ok (op.qubits.map (mget m)) :=
      remapList_ok_of_covered m op.qubits fun q hq =>
        h q (by rw [List.flatMap_cons]; exact List.mem_append_left _ hq)
    have h2 := ih fun q hq =>
      h q (by rw [List.flatMap_cons]; exact List.mem_append_right _ hq)
    simp only [remapOps, SimpleOp.remap_qubits, h1, h2, Except.map, List.map_cons,
      exceptBind_ok]

theorem remapOps_error (m : QubitMapping) (ops : List SimpleOp) (q : ℕ)
    (hq : q ∈ ops.flatMap SimpleOp.qubits) (hn : m q = none) :
    ∃ q2, remapOps m ops = .error (.QubitMappingError q2) := by
  induction ops with
  | nil => simp at hq
  | cons op rest ih =>
    rw [List.flatMap_cons] at hq
    by_cases hmem : ∃ x ∈ op.qubits, m x = none
    · obtain ⟨x, hx, hxn⟩ := hmem
      obtain ⟨q2, h2⟩ := remapList_error_exists m op.qubits x hx hxn
      refine ⟨q2, ?_⟩
      simp [remapOps, SimpleOp.remap_qubits, h2, Except.map, exceptBind_error]
    · push_neg at hmem
      have hcov : ∀ x ∈ op.qubits, (m x).isSome := by
        intro x hx
        cases hmx : m x with
        | none => exact absurd hmx (hmem x hx)
        | some v => rfl
      have hq' : q ∈ rest.flatMap SimpleOp.qubits := by
        rcases List.mem_append.mp hq with h | h
        · exact absurd hn (hmem q h)
        · exact h
      obtain ⟨q2, h2⟩ := ih hq'
      refine ⟨q2, ?_⟩
      simp [remapOps, SimpleOp.remap_qubits, remapList_ok_of_covered m op.qubits hcov,
        Except.map, h2, exceptBind_ok, exceptBind_error]

theorem involvedOps_map (f : ℕ → ℕ) (ops : List SimpleOp) :
    involvedOps (ops.map fun op => ⟨op.qubits.map f, op.param⟩)
      = (involvedOps ops).image f := by
  induction ops with
  | nil => simp [involvedOps]
  | cons op rest ih =>
    simp only [List.map_cons, involvedOps, ih, Finset.image_union, list_toFinset_map]

theorem simpleOps_map_id (m : QubitMapping) (ops : List SimpleOp)
    (h : ∀ q ∈ ops.flatMap SimpleOp.qubits, m q = some q) :
    (ops.map fun op => (⟨op.qubits.map (mget m), op.param⟩ : SimpleOp)) = ops := by
  induction ops with
  | nil => rfl
  | cons op rest ih =>
    have h1 : op.qubits.map (mget m) = op.qubits :=
      map_mget_id m op.qubits fun q hq =>
        h q (by rw [List.flatMap_cons]; exact List.mem_append_left _ hq)
    have h2 := ih fun q hq =>
      h q (by rw [List.flatMap_cons]; exact List.mem_append_right _ hq)
    simp only [List.map_cons, h1, h2]

theorem damping_superoperator_eval (q : ℕ) (g r : ℝ) :
    (PragmaDamping.mk q (.Float g) (.Float r)).superoperator =
      .ok ![![1, 0, 0, 1 - Real.exp (-1 * g * r)],
            ![0, Real.sqrt (1 - (1 - Real.exp (-1 * g * r))), 0, 0],
            ![0, 0, Real.sqrt (1 - (1 - Real.exp (-1 * g * r))), 0],
            ![0, 0, 0, 1 - (1 - Real.exp (-1 * g * r))]] := rfl

theorem depolarising_superoperator_eval (q : ℕ) (g r : ℝ) :
    (PragmaDepolarising.mk q (.Float g) (.Float r)).superoperator =
      .ok ![![1 - 2 / 3 * (3 / 4 * (1 - Real.exp (-1 * g * r))), 0, 0,
              2 / 3 * (3 / 4 * (1 - Real.exp (-1 * g * r)))],
            ![0, 1 - 4 / 3 * (3 / 4 * (1 - Real.exp (-1 * g * r))), 0, 0],
            ![0, 0, 1 - 4 / 3 * (3 / 4 * (1 - Real.exp (-1 * g * r))), 0],
            ![2 / 3 * (3 / 4 * (1 - Real.exp (-1 * g * r))), 0, 0,
              1 - 2 / 3 * (3 / 4 * (1 - Real.exp (-1 * g * r)))]] := rfl

theorem dephasing_superoperator_eval (q : ℕ) (g r : ℝ) :
    (PragmaDephasing.mk q (.Float g) (.Float r)).superoperator =
      .ok ![![1, 0, 0, 0],
            ![0, 1 - 2 * (1 / 2 * (1 - Real.exp (-2 * g * r))), 0, 0],
            ![0, 0, 1 - 2 * (1 / 2 * (1 - Real.exp (-2 * g * r))), 0],
            ![0, 0, 0, 1]] := rfl

theorem randomnoise_superoperator_eval (q : ℕ) (g dep deph : ℝ) :
    (PragmaRandomNoise.mk q (.Float g) (.Float dep) (.Float deph)).superoperator =
      .ok ![![1, 0, 0, 0],
            ![0, 1 - 2 * (1 / 2 * (1 - Real.exp (-2 * g * deph))), 0, 0],
            ![0, 0, 1 - 2 * (1 / 2 * (1 - Real.exp (-2 * g * deph))), 0],
            ![0, 0, 0, 1]] := rfl

/-- C1 (code bug): `PragmaConditional::remap_qubits` and
`PragmaConditional::substitute_parameters` delegate to the embedded
sub-circuit, but call `.unwrap()` on its result: at an input where the
sub-circuit call returns an error, the operation's call panics (modelled as
`none`) instead of returning that error unchanged. -/
theorem conditional_unwrap_panics :
    (Circuit.remap_qubits ⟨[⟨[5], .Float 0⟩]⟩ (fun q => if q = 0 then some 1 else none)
        = .error (.QubitMappingError 5))
  ∧ (PragmaConditional.remap_qubits ⟨"ro", 0, ⟨[⟨[5], .Float 0⟩]⟩⟩
        (fun q => if q = 0 then some 1 else none) = none)
  ∧ (Circuit.substitute_parameters ⟨[⟨[], .Str (.sym "x")⟩]⟩ (fun _ => none)
        = .error (.CalculatorError "x"))
  ∧ (PragmaConditional.substitute_parameters ⟨"ro", 0, ⟨[⟨[], .Str (.sym "x")⟩]⟩⟩
        (fun _ => none) = none) :=
  ⟨rfl, rfl, rfl, rfl⟩

/-- C2 (counterexample): with the symbolic gate time "t", applying `powercf`
with 2 and then with 1/2 yields the symbolic gate time (1/2 * (2 * t)),
which is a different calculator value than "t". -/
theorem powercf_roundtrip_counterexample :
    (((PragmaDamping.mk 0 (.Str (.sym "t")) (.Float 0)).powercf (.Float 2)).powercf
        (.Float (1 / 2))).gate_time
      ≠ (PragmaDamping.mk 0 (.Str (.sym "t")) (.Float 0)).gate_time := by
  simp [PragmaDamping.powercf, CalculatorFloat.mul, CalculatorFloat.toExpr]

/-- C2 (amended): for every noise operation and concrete exponent k ≠ 0,
`powercf` with k followed by `powercf` with 1/k yields an operation whose
gate time evaluates to the original gate time under every symbol
assignment; when the gate time is a concrete number the round trip returns
exactly the original gate time. (For a symbolic gate time the result is the
semantically equal but structurally different expression (1/k)*(k*t).) -/
theorem powercf_roundtrip (k : ℝ) (hk : k ≠ 0) :
    (∀ (op : PragmaDamping) (σ : String → ℝ),
        cfEval σ (((op.powercf (.Float k)).powercf (.Float (1 / k))).gate_time)
          = cfEval σ op.gate_time)
  ∧ (∀ (op : PragmaDamping) (x : ℝ), op.gate_time = .Float x →
        ((op.powercf (.Float k)).powercf (.Float (1 / k))).gate_time = .Float x)
  ∧ (∀ (op : PragmaDepolarising) (σ : String → ℝ),
        cfEval σ (((op.powercf (.Float k)).powercf (.Float (1 / k))).gate_time)
          = cfEval σ op.gate_time)
  ∧ (∀ (op : PragmaDepolarising) (x : ℝ), op.gate_time = .Float x →
        ((op.powercf (.Float k)).powercf (.Float (1 / k))).gate_time = .Float x)
  ∧ (∀ (op : PragmaDephasing) (σ : String → ℝ),
        cfEval σ (((op.powercf (.Float k)).powercf (.Float (1 / k))).gate_time)
          = cfEval σ op.gate_time)
  ∧ (∀ (op : PragmaDephasing) (x : ℝ), op.gate_time = .Float x →
        ((op.powercf (.Float k)).powercf (.Float (1 / k))).gate_time = .Float x)
  ∧ (∀ (op : PragmaRandomNoise) (σ : String → ℝ),
        cfEval σ (((op.powercf (.Float k)).powercf (.Float (1 / k))).gate_time)
          = cfEval σ op.gate_time)
  ∧ (∀ (op : PragmaRandomNoise) (x : ℝ), op.gate_time = .Float x →
        ((op.powercf (.Float k)).powercf (.Float (1 / k))).gate_time = .Float x) := by
  have hval : ∀ x : ℝ, 1 / k * (k * x) = x := fun x => by
    rw [one_div, inv_mul_cancel_left₀ hk]
  refine ⟨fun op σ => ?_, fun op x hx => ?_, fun op σ => ?_, fun op x hx => ?_,
    fun op σ => ?_, fun op x hx => ?_, fun op σ => ?_, fun op x hx => ?_⟩ <;>
    first
    | (simp only [PragmaDamping.powercf, PragmaDepolarising.powercf,
        PragmaDephasing.powercf, PragmaRandomNoise.powercf, cfEval_mul]
       show cfEval σ (.Float (1 / k)) * (cfEval σ (.Float k) * _) = _
       show (1 / k) * (k * _) = _
       rw [hval])
    | (simp only [PragmaDamping.powercf, PragmaDepolarising.powercf,
        PragmaDephasing.powercf, PragmaRandomNoise.powercf, hx,
        CalculatorFloat.mul, hval])

/-- C2 (witness): the amended round-trip statement at the concrete exponent
2 and a symbolic gate time "t". -/
theorem powercf_roundtrip_witness :
    cfEval (fun _ => 7) (((PragmaDamping.mk 0 (.Str (.sym "t")) (.Float 0)).powercf
        (.Float 2)).powercf (.Float (1 / 2))).gate_time
      = cfEval (fun _ => 7) (PragmaDamping.mk 0 (.Str (.sym "t")) (.Float 0)).gate_time :=
  (powercf_roundtrip 2 (by norm_num)).1 (PragmaDamping.mk 0 (.Str (.sym "t")) (.Float 0)) _

/-- C5: the probability of damping and of dephasing evaluates, under every
symbol assignment, to (1/2)(1 - exp(-2 gate_time rate)); that of
depolarising to (3/4)(1 - exp(-1 gate_time rate)); and the result stays
symbolic whenever the gate time or the rate is symbolic (`probability`
returns a plain calculator value: it has no failure path). -/
theorem noise_probability_formulas (q : ℕ) (gt rate : CalculatorFloat) (σ : String → ℝ) :
    (cfEval σ (PragmaDamping.mk q gt rate).probability
       = 1 / 2 * (1 - Real.exp (-2 * cfEval σ gt * cfEval σ rate)))
  ∧ (cfEval σ (PragmaDephasing.mk q gt rate).probability
       = 1 / 2 * (1 - Real.exp (-2 * cfEval σ gt * cfEval σ rate)))
  ∧ (cfEval σ (PragmaDepolarising.mk q gt rate).probability
       = 3 / 4 * (1 - Real.exp (-1 * cfEval σ gt * cfEval σ rate)))
  ∧ (∀ e : CFExpr,
       ((PragmaDamping.mk q (.Str e) rate).probability).isSymbolic = true
     ∧ ((PragmaDephasing.mk q (.Str e) rate).probability).isSymbolic = true
     ∧ ((PragmaDepolarising.mk q (.Str e) rate).probability).isSymbolic = true
     ∧ ((PragmaDamping.mk q gt (.Str e)).probability).isSymbolic = true
     ∧ ((PragmaDephasing.mk q gt (.Str e)).probability).isSymbolic = true
     ∧ ((PragmaDepolarising.mk q gt (.Str e)).probability).isSymbolic = true) := by
  refine ⟨?_, ?_, ?_, fun e => ⟨?_, ?_, ?_, ?_, ?_, ?_⟩⟩
  · simp only [PragmaDamping.probability, cfEval_mulF, cfEval_addF, cfEval_exp, cfEval_mul]
    rw [show cfEval σ gt * cfEval σ rate * -2 = -2 * cfEval σ gt * cfEval σ rate by ring]
    ring
  · simp only [PragmaDephasing.probability, cfEval_mulF, cfEval_addF, cfEval_exp, cfEval_mul]
    rw [show cfEval σ gt * cfEval σ rate * -2 = -2 * cfEval σ gt * cfEval σ rate by ring]
    ring
  · simp only [PragmaDepolarising.probability, cfEval_mulF, cfEval_addF, cfEval_exp, cfEval_mul]
    rw [show cfEval σ gt * cfEval σ rate * -1 = -1 * cfEval σ gt * cfEval σ rate by ring]
    ring
  all_goals
    simp [PragmaDamping.probability, PragmaDephasing.probability,
      PragmaDepolarising.probability, CalculatorFloat.mulF, CalculatorFloat.addF,
      CalculatorFloat.mul, CalculatorFloat.add, CalculatorFloat.exp,
      CalculatorFloat.toExpr, CalculatorFloat.isSymbolic]

/-- C6: the probability of a random-noise operation evaluates, under every
symbol assignment, to the sum of the three partial rates (dep/4, dep/4,
dep/4 + deph) times the gate time, i.e. (3/4 dep + deph)·gate_time — linear
in the gate time, with no exponential — while its superoperator uses only
the gate time and the dephasing rate, with exactly the dephasing formula. -/
theorem random_noise_formulas (q : ℕ) :
    (∀ (g dep deph : CalculatorFloat) (σ : String → ℝ),
       cfEval σ (PragmaRandomNoise.mk q g dep deph).probability
         = (3 / 4 * cfEval σ dep + cfEval σ deph) * cfEval σ g)
  ∧ (∀ g dep deph : ℝ,
       (PragmaRandomNoise.mk q (.Float g) (.Float dep) (.Float deph)).superoperator
         = (PragmaDephasing.mk q (.Float g) (.Float deph)).superoperator)
  ∧ (∀ g dep deph : ℝ,
       (PragmaRandomNoise.mk q (.Float g) (.Float dep) (.Float deph)).superoperator
         = .ok ![![1, 0, 0, 0],
                 ![0, 1 - 2 * (1 / 2 * (1 - Real.exp (-2 * g * deph))), 0, 0],
                 ![0, 0, 1 - 2 * (1 / 2 * (1 - Real.exp (-2 * g * deph))), 0],
                 ![0, 0, 0, 1]]) := by
  refine ⟨?_, fun g dep deph => rfl, fun g dep deph => rfl⟩
  intro g dep deph σ
  simp only [PragmaRandomNoise.probability, cfEval_mul, cfEval_add, cfEval_divF]
  ring

/-- C8: for every operation, the tag list is non-empty, its first element is
"Operation", and it equals the per-variant constant of the static tag table
(it depends only on the variant, not on the instance's payload; the model's
values are immutable, so clones and repeated queries read the same list). -/
theorem tags_invariant (op : Operation) :
    op.tags ≠ [] ∧ op.tags.head? = some "Operation"
      ∧ op.tags = tagsOfVariant op.variant := by
  cases op <;> exact ⟨by simp [Operation.tags, TAGS_PragmaSetNumberOfMeasurements,
    TAGS_PragmaSetStateVector, TAGS_PragmaSetDensityMatrix, TAGS_PragmaRepeatGate,
    TAGS_PragmaOverrotation, TAGS_PragmaBoostNoise, TAGS_PragmaStopParallelBlock,
    TAGS_PragmaGlobalPhase, TAGS_PragmaSleep, TAGS_PragmaActiveReset,
    TAGS_PragmaStartDecompositionBlock, TAGS_PragmaStopDecompositionBlock,
    TAGS_PragmaDamping, TAGS_PragmaDepolarising, TAGS_PragmaDephasing,
    TAGS_PragmaRandomNoise, TAGS_PragmaGeneralNoise, TAGS_PragmaConditional],
    rfl, rfl⟩

/-- C10: the static tag list of the conditional variant is exactly
["Operation", "SingleQubitOperation", "PragmaOperation", "PragmaConditional"]
— it contains "SingleQubitOperation" even though the embedded sub-circuit
may involve several qubits (here the two qubits 0 and 2). -/
theorem conditional_tags_single_qubit :
    TAGS_PragmaConditional
        = ["Operation", "SingleQubitOperation", "PragmaOperation", "PragmaConditional"]
  ∧ (∀ c : PragmaConditional, (Operation.PragmaConditional c).tags = TAGS_PragmaConditional)
  ∧ "SingleQubitOperation" ∈ TAGS_PragmaConditional
  ∧ (PragmaConditional.mk "c" 0 ⟨[⟨[0, 2], .Float 0⟩]⟩).involved_qubits
      = .Set {0, 2} := by
  refine ⟨rfl, fun c => rfl, by simp [TAGS_PragmaConditional], ?_⟩
  show InvolvedQubits.Set (involvedOps [⟨[0, 2], .Float 0⟩]) = InvolvedQubits.Set {0, 2}
  exact congrArg _ (by decide)

theorem sqrt_half_approx :
    |Real.sqrt (1 / 2) - 0.7071067811865476| ≤ 1e-9 := by
  have h1 : Real.sqrt (1 / 2) ≤ 0.7071067811865476 := by
    have h := Real.sqrt_le_sqrt (show (1 : ℝ) / 2 ≤ 0.7071067811865476 ^ 2 by norm_num)
    rwa [Real.sqrt_sq (by norm_num)] at h
  have h2 : (0.7071067811865476 : ℝ) - 1e-9 ≤ Real.sqrt (1 / 2) := by
    have h3 : ((0.7071067811865476 : ℝ) - 1e-9)
        = Real.sqrt (((0.7071067811865476 : ℝ) - 1e-9) ^ 2) :=
      (Real.sqrt_sq (by norm_num)).symm
    rw [h3]
    exact Real.sqrt_le_sqrt (by norm_num)
  rw [abs_le]
  constructor <;> linarith

theorem exp_neg_log_two : Real.exp (-1 * 1 * Real.log 2) = 1 / 2 := by
  rw [show (-1 : ℝ) * 1 * Real.log 2 = -Real.log 2 by ring, Real.exp_neg,
    Real.exp_log (by norm_num : (0 : ℝ) < 2)]
  norm_num

/-- C4: for concrete gate time g and rate r, the damping superoperator
succeeds and is the matrix with rows [1,0,0,p], [0,√(1-p),0,0],
[0,0,√(1-p),0], [0,0,0,1-p] for p = 1 - exp(-(g·r)); at g = 1, r = ln 2
every entry is within 1e-9 of the expected matrix with p = 0.5 and
√(1-p) = 0.7071067811865476. -/
theorem damping_superoperator_formula :
    (∀ (q : ℕ) (g r : ℝ),
       (PragmaDamping.mk q (.Float g) (.Float r)).superoperator =
         .ok ![![1, 0, 0, 1 - Real.exp (-(g * r))],
               ![0, Real.sqrt (1 - (1 - Real.exp (-(g * r)))), 0, 0],
               ![0, 0, Real.sqrt (1 - (1 - Real.exp (-(g * r)))), 0],
               ![0, 0, 0, 1 - (1 - Real.exp (-(g * r)))]])
  ∧ (∃ M, (PragmaDamping.mk 0 (.Float 1) (.Float (Real.log 2))).superoperator = .ok M
      ∧ ∀ i j, |M i j - ![![1, 0, 0, 0.5],
                          ![0, 0.7071067811865476, 0, 0],
                          ![0, 0, 0.7071067811865476, 0],
                          ![0, 0, 0, 0.5]] i j| ≤ 1e-9) := by
  constructor
  · intro q g r
    rw [damping_superoperator_eval, show -1 * g * r = -(g * r) by ring]
  · refine ⟨_, damping_superoperator_eval 0 1 (Real.log 2), ?_⟩
    rw [show (1 : ℝ) - (1 - Real.exp (-1 * 1 * Real.log 2)) = 1 / 2 by
          rw [exp_neg_log_two]; norm_num,
        show (1 : ℝ) - Real.exp (-1 * 1 * Real.log 2) = 0.5 by
          rw [exp_neg_log_two]; norm_num]
    have hs := sqrt_half_approx
    generalize hsq : Real.sqrt (1 / 2) = s at hs ⊢
    intro i j
    fin_cases i <;> fin_cases j <;>
      simp only [Matrix.cons_val_zero, Matrix.cons_val_one, Matrix.cons_val_two,
        Matrix.cons_val_three, Matrix.cons_val_zero', Matrix.cons_val_succ',
        Matrix.head_cons, Matrix.tail_cons, Fin.isValue] <;>
      first
      | exact hs
      | norm_num

/-- C9: for every concrete gate time and rate, the superoperator matrix M of
each of the four noise variants satisfies M 0 j + M 3 j = (1,0,0,1) — the
channel is trace-preserving for every rate, not only at rate 0. -/
theorem noise_superoperator_trace_preserving (q : ℕ) (g r r2 : ℝ) :
    (∃ M, (PragmaDamping.mk q (.Float g) (.Float r)).superoperator = .ok M
       ∧ ∀ j, M 0 j + M 3 j = ![1, 0, 0, 1] j)
  ∧ (∃ M, (PragmaDepolarising.mk q (.Float g) (.Float r)).superoperator = .ok M
       ∧ ∀ j, M 0 j + M 3 j = ![1, 0, 0, 1] j)
  ∧ (∃ M, (PragmaDephasing.mk q (.Float g) (.Float r)).superoperator = .ok M
       ∧ ∀ j, M 0 j + M 3 j = ![1, 0, 0, 1] j)
  ∧ (∃ M, (PragmaRandomNoise.mk q (.Float g) (.Float r2) (.Float r)).superoperator = .ok M
       ∧ ∀ j, M 0 j + M 3 j = ![1, 0, 0, 1] j) := by
  refine ⟨⟨_, damping_superoperator_eval q g r, ?_⟩,
    ⟨_, depolarising_superoperator_eval q g r, ?_⟩,
    ⟨_, dephasing_superoperator_eval q g r, ?_⟩,
    ⟨_, randomnoise_superoperator_eval q g r2 r, ?_⟩⟩ <;>
    (intro j
     fin_cases j <;>
      simp only [Matrix.cons_val_zero, Matrix.cons_val_one, Matrix.cons_val_two,
        Matrix.cons_val_three, Matrix.cons_val_zero', Matrix.cons_val_succ',
        Matrix.head_cons, Matrix.tail_cons, Fin.isValue] <;>
      ring)

/-- C3: for every decomposition-block start and every mapping,
`remap_qubits` returns `QubitMappingError q` exactly when some qubit q that
the operation uses (an element of its qubit list, or a key or a value of
its reordering dictionary) is absent from the mapping; when every such
qubit is present it succeeds, with the qubit list remapped element-wise
and — for a key set remapped without collisions, which the spec's
injective-on-used-qubits precondition guarantees — the reordering
dictionary remapped key- and value-wise. -/
theorem startDecompositionBlock_remap_exact (op : PragmaStartDecompositionBlock)
    (m : QubitMapping) :
    (∀ q, op.remap_qubits m = .error (.QubitMappingError q) →
       q ∈ op.usedQubits ∧ m q = none)
  ∧ ((∃ q ∈ op.usedQubits, m q = none) ↔
       ∃ q, op.remap_qubits m = .error (.QubitMappingError q))
  ∧ ((∀ q ∈ op.usedQubits, (m q).isSome) →
      ∃ op2, op.remap_qubits m = .ok op2
        ∧ op2.qubits = op.qubits.map (mget m)
        ∧ ((op.reordering_dictionary.map fun p => mget m p.1).Nodup →
            op2.reordering_dictionary =
              op.reordering_dictionary.map fun p => (mget m p.1, mget m p.2))) := by
  refine ⟨?_, ⟨?_, ?_⟩, ?_⟩
  · intro q h
    cases hr : remapList m op.qubits with
    | error e =>
      simp only [PragmaStartDecompositionBlock.remap_qubits, hr, exceptBind_error] at h
      obtain rfl : e = .QubitMappingError q := by simpa using h
      obtain ⟨hmem, hn⟩ := remapList_error_mem m op.qubits q hr
      exact ⟨List.mem_append_left _ hmem, hn⟩
    | ok l =>
      cases hd : remapDictLoop m [] op.reordering_dictionary with
      | error e =>
        simp only [PragmaStartDecompositionBlock.remap_qubits, hr, hd,
          exceptBind_ok, exceptBind_error] at h
        obtain rfl : e = .QubitMappingError q := by simpa using h
        obtain ⟨hmem, hn⟩ := remapDictLoop_error_mem m op.reordering_dictionary q [] hd
        exact ⟨List.mem_append_right _ hmem, hn⟩
      | ok d =>
        simp only [PragmaStartDecompositionBlock.remap_qubits, hr, hd,
          exceptBind_ok] at h
        exact Except.noConfusion h
  · rintro ⟨q, hq, hn⟩
    rcases List.mem_append.mp hq with hql | hqd
    · obtain ⟨q2, h2⟩ := remapList_error_exists m op.qubits q hql hn
      exact ⟨q2, by simp only [PragmaStartDecompositionBlock.remap_qubits, h2,
        exceptBind_error]⟩
    · by_cases hmem : ∃ x ∈ op.qubits, m x = none
      · obtain ⟨x, hx, hxn⟩ := hmem
        obtain ⟨q2, h2⟩ := remapList_error_exists m op.qubits x hx hxn
        exact ⟨q2, by simp only [PragmaStartDecompositionBlock.remap_qubits, h2,
          exceptBind_error]⟩
      · push_neg at hmem
        have hcovq : ∀ x ∈ op.qubits, (m x).isSome := by
          intro x hx
          cases hmx : m x with
          | none => exact absurd hmx (hmem x hx)
          | some v => rfl
        obtain ⟨q2, h2⟩ := remapDictLoop_error_exists m op.reordering_dictionary q hqd hn []
        exact ⟨q2, by simp only [PragmaStartDecompositionBlock.remap_qubits,
          remapList_ok_of_covered m op.qubits hcovq, h2, exceptBind_ok,
          exceptBind_error]⟩
  · rintro ⟨q, h⟩
    cases hr : remapList m op.qubits with
    | error e =>
      simp only [PragmaStartDecompositionBlock.remap_qubits, hr, exceptBind_error] at h
      obtain rfl : e = .QubitMappingError q := by simpa using h
      obtain ⟨hmem, hn⟩ := remapList_error_mem m op.qubits q hr
      exact ⟨q, List.mem_append_left _ hmem, hn⟩
    | ok l =>
      cases hd : remapDictLoop m [] op.reordering_dictionary with
      | error e =>
        simp only [PragmaStartDecompositionBlock.remap_qubits, hr, hd,
          exceptBind_ok, exceptBind_error] at h
        obtain rfl : e = .QubitMappingError q := by simpa using h
        obtain ⟨hmem, hn⟩ := remapDictLoop_error_mem m op.reordering_dictionary q [] hd
        exact ⟨q, List.mem_append_right _ hmem, hn⟩
      | ok d =>
        simp only [PragmaStartDecompositionBlock.remap_qubits, hr, hd,
          exceptBind_ok] at h
        exact Except.noConfusion h
  · intro hcov
    have hcovq : ∀ q ∈ op.qubits, (m q).isSome := fun q hq =>
      hcov q (List.mem_append_left _ hq)
    have hcovd : ∀ q ∈ op.reordering_dictionary.flatMap fun p => [p.1, p.2],
        (m q).isSome := fun q hq => hcov q (List.mem_append_right _ hq)
    have h1 : remapList m op.qubits = .ok (op.qubits.map (mget m)) :=
      remapList_ok_of_covered m op.qubits hcovq
    obtain ⟨d, hd⟩ := remapDictLoop_ok_of_covered m op.reordering_dictionary hcovd []
    refine ⟨⟨op.qubits.map (mget m), d⟩, ?_, rfl, ?_⟩
    · simp only [PragmaStartDecompositionBlock.remap_qubits, h1, hd, exceptBind_ok]
    · intro hnd
      have h2 := remapDictLoop_eq_append m op.reordering_dictionary [] hcovd
        (by simpa using hnd)
      rw [hd] at h2
      have h3 := Except.ok.inj h2
      simpa using h3

/-- C3 (witness): the exactness statement applied at the concrete block with
qubit list [0] and reordering dictionary [(1, 2)], under the mapping sending
q to q + 5 for q = 0, 1, 2. -/
theorem startDecompositionBlock_remap_exact_witness :
    ∃ op2 : PragmaStartDecompositionBlock,
      PragmaStartDecompositionBlock.remap_qubits ⟨[0], [(1, 2)]⟩
          (fun q => if q ≤ 2 then some (q + 5) else none) = .ok op2
        ∧ op2.qubits = [5] ∧ op2.reordering_dictionary = [(6, 7)] := by
  obtain ⟨op2, h1, h2, h3⟩ := (startDecompositionBlock_remap_exact ⟨[0], [(1, 2)]⟩
    (fun q => if q ≤ 2 then some (q + 5) else none)).2.2 (by decide)
  refine ⟨op2, h1, ?_, ?_⟩
  · rw [h2]; decide
  · rw [h3 (by decide)]; decide

/-- C7 (counterexample): the claim fails as stated: this decomposition-block
start involves only qubit 0 and the mapping covers qubit 0, yet
`remap_qubits` fails, naming qubit 5 of the reordering dictionary, which
the involvement set does not list. -/
theorem remap_qubits_homomorphism_counterexample :
    ((Operation.PragmaStartDecompositionBlock ⟨[0], [(5, 6)]⟩).involved_qubits
        = .Set {0})
  ∧ (∀ q2 ∈ ({0} : Finset ℕ),
      ((fun q => if q = 0 then some 1 else none) q2 : Option ℕ).isSome)
  ∧ (Operation.PragmaStartDecompositionBlock ⟨[0], [(5, 6)]⟩).remap_qubits
      (fun q => if q = 0 then some 1 else none)
      = some (.error (.QubitMappingError 5)) := by
  refine ⟨?_, by decide, rfl⟩
  show InvolvedQubits.Set ([0] : List ℕ).toFinset = InvolvedQubits.Set {0}
  exact congrArg _ (by decide)

/-- C7 (amended): whenever the mapping covers every qubit the operation uses
(for the decomposition-block start this includes the reordering
dictionary's keys and values, which its involvement set does not list),
`remap_qubits` succeeds, the involvement result of the new operation is the
image of the old one under the mapping, and the identity mapping on the
used qubits returns the original operation. -/
theorem remap_qubits_homomorphism (op : Operation) (m : QubitMapping)
    (hcov : ∀ q ∈ op.usedQubits, (m q).isSome) (hwf : op.wf) :
    ∃ op2, op.remap_qubits m = some (.ok op2)
      ∧ op2.involved_qubits = op.involved_qubits.image (mget m)
      ∧ ((∀ q ∈ op.usedQubits, m q = some q) → op2 = op) := by
  cases op with
  | PragmaSetNumberOfMeasurements op => exact ⟨_, rfl, rfl, fun _ => rfl⟩
  | PragmaSetStateVector op => exact ⟨_, rfl, rfl, fun _ => rfl⟩
  | PragmaSetDensityMatrix op => exact ⟨_, rfl, rfl, fun _ => rfl⟩
  | PragmaRepeatGate op => exact ⟨_, rfl, rfl, fun _ => rfl⟩
  | PragmaBoostNoise op => exact ⟨_, rfl, rfl, fun _ => rfl⟩
  | PragmaGlobalPhase op => exact ⟨_, rfl, rfl, fun _ => rfl⟩
  | PragmaOverrotation op =>
    have h1 : remapList m op.qubits = .ok (op.qubits.map (mget m)) :=
      remapList_ok_of_covered m op.qubits hcov
    refine ⟨.PragmaOverrotation { op with qubits := op.qubits.map (mget m) }, ?_, ?_, ?_⟩
    · simp only [Operation.remap_qubits, h1, Except.map]
    · show InvolvedQubits.Set (op.qubits.map (mget m)).toFinset
        = InvolvedQubits.image (mget m) (.Set op.qubits.toFinset)
      simp only [InvolvedQubits.image, list_toFinset_map]
    · intro hid
      simp [map_mget_id m op.qubits hid]
  | PragmaStopParallelBlock op =>
    have h1 : remapList m op.qubits = .ok (op.qubits.map (mget m)) :=
      remapList_ok_of_covered m op.qubits hcov
    refine ⟨.PragmaStopParallelBlock { op with qubits := op.qubits.map (mget m) },
      ?_, ?_, ?_⟩
    · simp only [Operation.remap_qubits, h1, Except.map]
    · show InvolvedQubits.Set (op.qubits.map (mget m)).toFinset
        = InvolvedQubits.image (mget m) (.Set op.qubits.toFinset)
      simp only [InvolvedQubits.image, list_toFinset_map]
    · intro hid
      simp [map_mget_id m op.qubits hid]
  | PragmaSleep op =>
    have h1 : remapList m op.qubits = .ok (op.qubits.map (mget m)) :=
      remapList_ok_of_covered m op.qubits hcov
    refine ⟨.PragmaSleep { op with qubits := op.qubits.map (mget m) }, ?_, ?_, ?_⟩
    · simp only [Operation.remap_qubits, h1, Except.map]
    · show InvolvedQubits.Set (op.qubits.map (mget m)).toFinset
        = InvolvedQubits.image (mget m) (.Set op.qubits.toFinset)
      simp only [InvolvedQubits.image, list_toFinset_map]
    · intro hid
      simp [map_mget_id m op.qubits hid]
  | PragmaStopDecompositionBlock op =>
    have h1 : remapList m op.qubits = .ok (op.qubits.map (mget m)) :=
      remapList_ok_of_covered m op.qubits hcov
    refine ⟨.PragmaStopDecompositionBlock { op with qubits := op.qubits.map (mget m) },
      ?_, ?_, ?_⟩
    · simp only [Operation.remap_qubits, h1, Except.map]
    · show InvolvedQubits.Set (op.qubits.map (mget m)).toFinset
        = InvolvedQubits.image (mget m) (.Set op.qubits.toFinset)
      simp only [InvolvedQubits.image, list_toFinset_map]
    · intro hid
      simp [map_mget_id m op.qubits hid]
  | PragmaActiveReset op =>
    obtain ⟨v, hv⟩ := Option.isSome_iff_exists.mp
      (hcov op.qubit (by simp [Operation.usedQubits]))
    refine ⟨.PragmaActiveReset { op with qubit := v }, ?_, ?_, ?_⟩
    · simp only [Operation.remap_qubits, remapSingle, hv, Except.map]
    · show InvolvedQubits.Set {v} = InvolvedQubits.image (mget m) (.Set {op.qubit})
      simp only [InvolvedQubits.image, Finset.image_singleton, mget, hv,
        Option.getD_some]
    · intro hid
      have h2 : m op.qubit = some op.qubit :=
        hid op.qubit (by simp [Operation.usedQubits])
      rw [hv] at h2
      obtain rfl : v = op.qubit := by simpa using h2
      rfl
  | PragmaDamping op =>
    obtain ⟨v, hv⟩ := Option.isSome_iff_exists.mp
      (hcov op.qubit (by simp [Operation.usedQubits]))
    refine ⟨.PragmaDamping { op with qubit := v }, ?_, ?_, ?_⟩
    · simp only [Operation.remap_qubits, remapSingle, hv, Except.map]
    · show InvolvedQubits.Set {v} = InvolvedQubits.image (mget m) (.Set {op.qubit})
      simp only [InvolvedQubits.image, Finset.image_singleton, mget, hv,
        Option.getD_some]
    · intro hid
      have h2 : m op.qubit = some op.qubit :=
        hid op.qubit (by simp [Operation.usedQubits])
      rw [hv] at h2
      obtain rfl : v = op.qubit := by simpa using h2
      rfl
  | PragmaDepolarising op =>
    obtain ⟨v, hv⟩ := Option.isSome_iff_exists.mp
      (hcov op.qubit (by simp [Operation.usedQubits]))
    refine ⟨.PragmaDepolarising { op with qubit := v }, ?_, ?_, ?_⟩
    · simp only [Operation.remap_qubits, remapSingle, hv, Except.map]
    · show InvolvedQubits.Set {v} = InvolvedQubits.image (mget m) (.Set {op.qubit})
      simp only [InvolvedQubits.image, Finset.image_singleton, mget, hv,
        Option.getD_some]
    · intro hid
      have h2 : m op.qubit = some op.qubit :=
        hid op.qubit (by simp [Operation.usedQubits])
      rw [hv] at h2
      obtain rfl : v = op.qubit := by simpa using h2
      rfl
  | PragmaDephasing op =>
    obtain ⟨v, hv⟩ := Option.isSome_iff_exists.mp
      (hcov op.qubit (by simp [Operation.usedQubits]))
    refine ⟨.PragmaDephasing { op with qubit := v }, ?_, ?_, ?_⟩
    · simp only [Operation.remap_qubits, remapSingle, hv, Except.map]
    · show InvolvedQubits.Set {v} = InvolvedQubits.image (mget m) (.Set {op.qubit})
      simp only [InvolvedQubits.image, Finset.image_singleton, mget, hv,
        Option.getD_some]
    · intro hid
      have h2 : m op.qubit = some op.qubit :=
        hid op.qubit (by simp [Operation.usedQubits])
      rw [hv] at h2
      obtain rfl : v = op.qubit := by simpa using h2
      rfl
  | PragmaRandomNoise op =>
    obtain ⟨v, hv⟩ := Option.isSome_iff_exists.mp
      (hcov op.qubit (by simp [Operation.usedQubits]))
    refine ⟨.PragmaRandomNoise { op with qubit := v }, ?_, ?_, ?_⟩
    · simp only [Operation.remap_qubits, remapSingle, hv, Except.map]
    · show InvolvedQubits.Set {v} = InvolvedQubits.image (mget m) (.Set {op.qubit})
      simp only [InvolvedQubits.image, Finset.image_singleton, mget, hv,
        Option.getD_some]
    · intro hid
      have h2 : m op.qubit = some op.qubit :=
        hid op.qubit (by simp [Operation.usedQubits])
      rw [hv] at h2
      obtain rfl : v = op.qubit := by simpa using h2
      rfl
  | PragmaGeneralNoise op =>
    obtain ⟨v, hv⟩ := Option.isSome_iff_exists.mp
      (hcov op.qubit (by simp [Operation.usedQubits]))
    refine ⟨.PragmaGeneralNoise { op with qubit := v }, ?_, ?_, ?_⟩
    · simp only [Operation.remap_qubits, remapSingle, hv, Except.map]
    · show InvolvedQubits.Set {v} = InvolvedQubits.image (mget m) (.Set {op.qubit})
      simp only [InvolvedQubits.image, Finset.image_singleton, mget, hv,
        Option.getD_some]
    · intro hid
      have h2 : m op.qubit = some op.qubit :=
        hid op.qubit (by simp [Operation.usedQubits])
      rw [hv] at h2
      obtain rfl : v = op.qubit := by simpa using h2
      rfl
  | PragmaStartDecompositionBlock op =>
    have hcovq : ∀ q ∈ op.qubits, (m q).isSome := fun q hq =>
      hcov q (List.mem_append_left _ hq)
    have hcovd : ∀ q ∈ op.reordering_dictionary.flatMap fun p => [p.1, p.2],
        (m q).isSome := fun q hq => hcov q (List.mem_append_right _ hq)
    have h1 : remapList m op.qubits = .ok (op.qubits.map (mget m)) :=
      remapList_ok_of_covered m op.qubits hcovq
    obtain ⟨d, hd⟩ := remapDictLoop_ok_of_covered m op.reordering_dictionary hcovd []
    refine ⟨.PragmaStartDecompositionBlock ⟨op.qubits.map (mget m), d⟩, ?_, ?_, ?_⟩
    · simp only [Operation.remap_qubits, PragmaStartDecompositionBlock.remap_qubits,
        h1, hd, exceptBind_ok, Except.map]
    · show InvolvedQubits.Set (op.qubits.map (mget m)).toFinset
        = InvolvedQubits.image (mget m) (.Set op.qubits.toFinset)
      simp only [InvolvedQubits.image, list_toFinset_map]
    · intro hid
      have h2 : op.qubits.map (mget m) = op.qubits :=
      map_mget_id m op.qubits fun q hq => hid q (List.mem_append_left _ hq)
      have hkeys : (op.reordering_dictionary.map fun p => mget m p.1) =
          op.reordering_dictionary.map Prod.fst :=
        List.map_congr_left fun p hp => by
          simp [mget, hid p.1 (List.mem_append_right _
            (List.mem_flatMap.mpr ⟨p, hp, by simp⟩))]
      have hnd : ((([] : List (ℕ × ℕ)).map Prod.fst)
          ++ op.reordering_dictionary.map fun p => mget m p.1).Nodup := by
        simpa [hkeys] using hwf
      have h3 := remapDictLoop_eq_append m op.reordering_dictionary [] hcovd hnd
      rw [hd] at h3
      have h4 := Except.ok.inj h3
      have h5 : (op.reordering_dictionary.map fun p => (mget m p.1, mget m p.2)) =
          op.reordering_dictionary := by
        conv_rhs => rw [show op.reordering_dictionary =
          op.reordering_dictionary.map id from (List.map_id _).symm]
        refine List.map_congr_left fun p hp => ?_
        have ho : m p.1 = some p.1 := hid p.1 (List.mem_append_right _
          (List.mem_flatMap.mpr ⟨p, hp, by simp⟩))
        have hn : m p.2 = some p.2 := hid p.2 (List.mem_append_right _
          (List.mem_flatMap.mpr ⟨p, hp, by simp⟩))
        simp [mget, ho, hn]
      rw [h4] at *
      simp [h2, h5]
  | PragmaConditional op =>
    have h1 : remapOps m op.circuit.operations =
        .ok (op.circuit.operations.map fun sop => ⟨sop.qubits.map (mget m), sop.param⟩) :=
      remapOps_ok_of_covered m op.circuit.operations hcov
    refine ⟨.PragmaConditional ⟨op.condition_register, op.condition_index,
        ⟨op.circuit.operations.map fun sop => ⟨sop.qubits.map (mget m), sop.param⟩⟩⟩,
      ?_, ?_, ?_⟩
    · simp only [Operation.remap_qubits, PragmaConditional.remap_qubits,
        Circuit.remap_qubits, h1, Except.map, Option.map]
    · show InvolvedQubits.Set (involvedOps _)
        = InvolvedQubits.image (mget m) (.Set (involvedOps op.circuit.operations))
      simp only [InvolvedQubits.image]
      exact congrArg _ (involvedOps_map (mget m) op.circuit.operations)
    · intro hid
      simp [simpleOps_map_id m op.circuit.operations hid]

/-- C7 (witness): the amended homomorphism applied at a concrete sleep
operation on qubits 0 and 2 with the mapping sending 0 to 3 and 2 to 4. -/
theorem remap_qubits_homomorphism_witness :
    ∃ op2, (Operation.PragmaSleep ⟨[0, 2], .Float 0⟩).remap_qubits
        (fun q => if q = 0 then some 3 else if q = 2 then some 4 else none)
        = some (.ok op2)
      ∧ op2.involved_qubits
        = (Operation.PragmaSleep ⟨[0, 2], .Float 0⟩).involved_qubits.image
            (mget fun q => if q = 0 then some 3 else if q = 2 then some 4 else none) := by
  obtain ⟨op2, h1, h2, -⟩ := remap_qubits_homomorphism
    (Operation.PragmaSleep ⟨[0, 2], .Float 0⟩)
    (fun q => if q = 0 then some 3 else if q = 2 then some 4 else none)
    (by decide) trivial
  exact ⟨op2, h1, h2⟩

end


